import Mathlib

/-!
# Verification of `dicom2pdf` (`src/app.py`)

A shallow embedding of the numerical core of `src/app.py` and of the thin
pipeline around it, together with theorems settling the specification's
claims about it.

Modelling conventions:
* A raw pixel grid (`numpy` 2-D array) is a `List (List ℚ)`; pixel samples
  are idealised as exact rationals (`astype(np.float64)` is the identity).
* `np.percentile`, `np.clip`, `np.min`, `np.max` and the rescaling step are
  translated literally; they are exact on rationals.
* `np.power` with a real exponent is modelled over `ℝ`; an entry where
  `np.power` returns a non-finite value (NaN for a negative base with a
  non-integral exponent, Inf for `0 ** a` with `a < 0`) is `none`.
* The only exception `normalize_image` can raise escapes from
  `np.percentile` on an empty array; this is the `Except.error` branch.
* The filesystem seen by `find_dicom_files` is a list of `FileEntry`
  records in `rglob` traversal order; `pydicom.dcmread` probing and
  pixel-array decoding are oracles carried by the entries / passed in.
-/

namespace Dicom2Pdf

/-- A raw 2-D sample grid (`numpy` array), row-major. -/
abbrev Qgrid := List (List ℚ)

/-- A display grid after `np.power`: entries are `none` when the float
entry would be non-finite (NaN/Inf). -/
abbrev Rgrid := List (List (Option ℝ))

/-- The flattened sample list of a grid, row-major (C order), as
`np.percentile` and the reductions see it. -/
def gridElems (g : Qgrid) : List ℚ := g.flatten

/-- Ascending sort of the flattened samples, as used inside
`np.percentile`. -/
def sortAsc (xs : List ℚ) : List ℚ := List.insertionSort (· ≤ ·) xs

/-- `np.percentile(xs, q)` with the default linear-interpolation method:
virtual index `v = q/100 * (n-1)` into the ascending sort, then linear
interpolation between the two closest ranks.  `none` models the exception
numpy raises on an empty array (`src/app.py:42`). -/
def npPercentile (xs : List ℚ) (q : ℚ) : Option ℚ :=
  match sortAsc xs with
  | [] => none
  | y :: ys =>
    let s := y :: ys
    let v : ℚ := q / 100 * ((s.length : ℚ) - 1)
    let lo : ℕ := (⌊v⌋).toNat
    let a := s.getD lo 0
    let b := s.getD (lo + 1) a
    some (a + (v - (lo : ℚ)) * (b - a))

/-- One sample of `np.clip(x, lo, hi) = np.minimum(np.maximum(x, lo), hi)`. -/
def npClip (lo hi x : ℚ) : ℚ := min (max x lo) hi

/-- `np.clip` over a whole grid (`src/app.py:43`). -/
def clipGrid (g : Qgrid) (lo hi : ℚ) : Qgrid := g.map (List.map (npClip lo hi))

/-- `np.min` of the flattened samples (left fold, as a numpy reduction);
`none` on an empty array. -/
def npMin : List ℚ → Option ℚ
  | [] => none
  | x :: xs => some (xs.foldl min x)

/-- `np.max` of the flattened samples; `none` on an empty array. -/
def npMax : List ℚ → Option ℚ
  | [] => none
  | x :: xs => some (xs.foldl max x)

/-- The linear rescale `(image_array - img_min) / (img_max - img_min)`
(`src/app.py:47`). -/
def rescaleGrid (g : Qgrid) (m M : ℚ) : Qgrid :=
  g.map (List.map (fun v => (v - m) / (M - m)))

/-- `normalize_image` up to (and excluding) the final `np.power`
(`src/app.py:41` – `src/app.py:47`): cast to float64, compute the 2nd and
98th percentiles, clip, recompute min and max of the clipped grid, and
rescale only when `img_max > img_min`.  `none` exactly when numpy's
percentile raises (empty grid). -/
def prescale (g : Qgrid) : Option Qgrid :=
  match npPercentile (gridElems g) 2, npPercentile (gridElems g) 98 with
  | some p2, some p98 =>
    let clipped := clipGrid g p2 p98
    match npMin (gridElems clipped), npMax (gridElems clipped) with
    | some m, some M => some (if M > m then rescaleGrid clipped m M else clipped)
    | _, _ => none
  | _, _ => none

section
open Classical

/-- `np.power(x, a)` on one float sample: `none` models a non-finite
result (NaN for a negative base with non-integral exponent, Inf for
`0 ** a` with `a < 0`); otherwise the real power `x ^ a` (`Real.rpow`
agrees with the float semantics on the remaining cases, including a
negative base with an integral exponent). -/
noncomputable def npPow (x a : ℝ) : Option ℝ :=
  if x < 0 then
    if ∃ n : ℤ, a = (n : ℝ) then some (x ^ a) else none
  else if x = 0 ∧ a < 0 then none
  else some (x ^ a)

end

/-- The elementwise gamma step `np.power(image_array, contrast_factor)`
(`src/app.py:48`). -/
noncomputable def gammaGrid (g : Qgrid) (a : ℝ) : Rgrid :=
  g.map (List.map (fun x : ℚ => npPow (x : ℝ) a))

/-- The exception surface of `normalize_image`: numpy's error on an empty
array inside `np.percentile`.  The code defines no error of its own (in
particular no `InvalidInput`). -/
inductive NpError where
  | emptyPercentile
deriving DecidableEq

/-- `normalize_image(image_array, contrast_factor)` (`src/app.py:40-48`). -/
noncomputable def normalize_image (g : Qgrid) (a : ℝ) : Except NpError Rgrid :=
  match prescale g with
  | none => .error .emptyPercentile
  | some q => .ok (gammaGrid q a)

/-! ## The spec's seven-step reference algorithm (for the refinement claim)

`spec_normalize` is written from the wording of §4.1 of the spec, step by
step and in the spec's order, to be compared with `normalize_image` above.
-/

/-- Spec step 1: "Convert every sample to wide floating-point" — exact on
the idealised rationals. -/
def specConvert (g : Qgrid) : Qgrid := g

/-- Spec step 2: "the standard linear-interpolation-between-closest-ranks
method over the flattened grid". -/
def specPercentile (xs : List ℚ) (q : ℚ) : Option ℚ :=
  let s := sortAsc xs
  if s.isEmpty then none
  else
    let rank : ℚ := q / 100 * ((s.length : ℚ) - 1)
    let lower : ℕ := (⌊rank⌋).toNat
    let lowerVal := s.getD lower 0
    let upperVal := s.getD (lower + 1) lowerVal
    some (lowerVal + (rank - (lower : ℚ)) * (upperVal - lowerVal))

/-- Spec step 3: "Clip (clamp) every sample into `[p_low, p_high]`". -/
def specClamp (pLow pHigh x : ℚ) : ℚ := min (max x pLow) pHigh

/-- Spec steps 5/6: "if max ≤ min … skip the division step; the grid
remains at its current (clipped, unscaled) value", "Otherwise, rescale
linearly: `value ← (value - min) / (max - min)`". -/
def specScale (clipped : Qgrid) (m M : ℚ) : Qgrid :=
  if M ≤ m then clipped
  else clipped.map (List.map (fun v => (v - m) / (M - m)))

/-- The spec's reference algorithm, steps 1–7 in order (§4.1). -/
noncomputable def spec_normalize (g : Qgrid) (a : ℝ) : Except NpError Rgrid :=
  let wide := specConvert g
  match specPercentile (gridElems wide) 2, specPercentile (gridElems wide) 98 with
  | some pLow, some pHigh =>
    let clipped := wide.map (List.map (specClamp pLow pHigh))
    match npMin (gridElems clipped), npMax (gridElems clipped) with
    | some m, some M =>
      .ok ((specScale clipped m M).map (List.map (fun v : ℚ => npPow (v : ℝ) a)))
    | _, _ => .error .emptyPercentile
  | _, _ => .error .emptyPercentile

/-! ## File discovery and the conversion pipeline -/

/-- One filesystem object as seen by `Path(folder_path).rglob('*')`:
its path string, its `Path.suffix` (the final extension, `""` when there
is none), whether it is a regular file, and whether
`pydicom.dcmread(path, stop_before_pixels=True)` succeeds on it. -/
structure FileEntry where
  path : String
  suffix : String
  isFile : Bool
  parses : Bool
deriving DecidableEq

/-- `str.lower()` on an (ASCII) extension, as in `path.suffix.lower()`. -/
def lowerChars (s : String) : List Char := s.toList.map Char.toLower

/-- The per-file test of `find_dicom_files` (`src/app.py:54-60`): a regular
file whose lower-cased suffix is `.dcm`/`.dicom` or which has no suffix at
all, and which `pydicom.dcmread` parses (the `except: pass` drops the
rest). -/
def isDicomCandidate (e : FileEntry) : Bool :=
  e.isFile &&
    (lowerChars e.suffix == ".dcm".toList || lowerChars e.suffix == ".dicom".toList
      || e.suffix == "") &&
    e.parses

/-- `find_dicom_files(folder_path)` (`src/app.py:50-61`) over the `rglob`
listing `entries`. -/
def find_dicom_files (entries : List FileEntry) : List String :=
  entries.filterMap fun e => if isDicomCandidate e then some e.path else none

/-- The loop body sequence of `convert_to_pdf` (`src/app.py:69-88`): decode
each discovered file with `read_dicom_image` (modelled by the oracle
`decode`, `none` when the file cannot be decoded, in which case the file
is skipped by `continue`), normalize it, and save the rendered page.  An
exception from `normalize_image` propagates and aborts the remaining
files. -/
noncomputable def renderPages (decode : String → Option Qgrid) (a : ℝ) :
    List String → Except NpError (List Rgrid)
  | [] => .ok []
  | fp :: rest =>
    match decode fp with
    | none => renderPages decode a rest
    | some img =>
      match normalize_image img a with
      | .error e => .error e
      | .ok page =>
        match renderPages decode a rest with
        | .error e => .error e
        | .ok pages => .ok (page :: pages)

/-- `convert_to_pdf(dicom_folder, output_pdf, contrast_factor, dpi)`
(`src/app.py:63-90`): `ok none` models the early `return None` when no
DICOM files are found; otherwise the PDF is written with one page per
successfully decoded file and `output_pdf` is returned.  The `dpi`
parameter only affects raster quality and is not modelled. -/
noncomputable def convert_to_pdf (entries : List FileEntry)
    (decode : String → Option Qgrid) (output_pdf : String) (a : ℝ) :
    Except NpError (Option (String × List Rgrid)) :=
  if (find_dicom_files entries).isEmpty then .ok none
  else
    match renderPages decode a (find_dicom_files entries) with
    | .error e => .error e
    | .ok pages => .ok (some (output_pdf, pages))

/-! ## Basic facts about the embedded numpy primitives -/

theorem sortAsc_perm (xs : List ℚ) : (sortAsc xs).Perm xs :=
  List.perm_insertionSort _ xs

theorem mem_sortAsc {x : ℚ} {xs : List ℚ} : x ∈ sortAsc xs ↔ x ∈ xs :=
  (sortAsc_perm xs).mem_iff

theorem sortAsc_eq_nil_iff {xs : List ℚ} : sortAsc xs = [] ↔ xs = [] := by
  constructor
  · intro h
    have := (sortAsc_perm xs).symm
    rw [h] at this
    exact this.eq_nil
  · intro h
    subst h
    rfl

theorem npPercentile_eq_none_iff {xs : List ℚ} {q : ℚ} :
    npPercentile xs q = none ↔ xs = [] := by
  rw [npPercentile]
  rcases h : sortAsc xs with _ | ⟨y, ys⟩
  · simp [sortAsc_eq_nil_iff.mp h]
  · have : xs ≠ [] := by
      intro hx
      rw [hx] at h
      exact absurd h.symm (by simp [sortAsc])
    simp [this]

theorem gridElems_mapGrid (g : Qgrid) (f : ℚ → ℚ) :
    gridElems (g.map (List.map f)) = (gridElems g).map f := by
  rw [gridElems, gridElems, List.map_flatten]

theorem gridElems_clipGrid (g : Qgrid) (lo hi : ℚ) :
    gridElems (clipGrid g lo hi) = (gridElems g).map (npClip lo hi) :=
  gridElems_mapGrid g _

theorem gridElems_rescaleGrid (g : Qgrid) (m M : ℚ) :
    gridElems (rescaleGrid g m M) = (gridElems g).map (fun v => (v - m) / (M - m)) :=
  gridElems_mapGrid g _

theorem gridElems_clipGrid_eq_nil_iff {g : Qgrid} {lo hi : ℚ} :
    gridElems (clipGrid g lo hi) = [] ↔ gridElems g = [] := by
  rw [gridElems_clipGrid]
  exact List.map_eq_nil_iff

theorem foldl_min_le_init (xs : List ℚ) (x : ℚ) : xs.foldl min x ≤ x := by
  induction xs generalizing x with
  | nil => simp
  | cons y ys ih => exact (ih (min x y)).trans (min_le_left _ _)

theorem foldl_min_le_mem (xs : List ℚ) (x : ℚ) {y : ℚ} (hy : y ∈ xs) :
    xs.foldl min x ≤ y := by
  induction xs generalizing x with
  | nil => cases hy
  | cons z zs ih =>
    rcases List.mem_cons.mp hy with rfl | hz
    · exact (foldl_min_le_init zs (min x y)).trans (min_le_right _ _)
    · exact ih (min x z) hz

theorem foldl_min_mem (xs : List ℚ) (x : ℚ) : xs.foldl min x = x ∨ xs.foldl min x ∈ xs := by
  induction xs generalizing x with
  | nil => left; rfl
  | cons y ys ih =>
    rcases ih (min x y) with h | h
    · rcases min_cases x y with ⟨he, _⟩ | ⟨he, _⟩
      · left; rw [List.foldl_cons, h, he]
      · right; rw [List.foldl_cons, h, he]; exact List.mem_cons_self _ _
    · right; exact List.mem_cons_of_mem _ h

theorem init_le_foldl_max (xs : List ℚ) (x : ℚ) : x ≤ xs.foldl max x := by
  induction xs generalizing x with
  | nil => simp
  | cons y ys ih => exact (le_max_left _ _).trans (ih (max x y))

theorem mem_le_foldl_max (xs : List ℚ) (x : ℚ) {y : ℚ} (hy : y ∈ xs) :
    y ≤ xs.foldl max x := by
  induction xs generalizing x with
  | nil => cases hy
  | cons z zs ih =>
    rcases List.mem_cons.mp hy with rfl | hz
    · exact (le_max_right _ _).trans (init_le_foldl_max zs (max x y))
    · exact ih (max x z) hz

theorem foldl_max_mem (xs : List ℚ) (x : ℚ) : xs.foldl max x = x ∨ xs.foldl max x ∈ xs := by
  induction xs generalizing x with
  | nil => left; rfl
  | cons y ys ih =>
    rcases ih (max x y) with h | h
    · rcases max_cases x y with ⟨he, _⟩ | ⟨he, _⟩
      · left; rw [List.foldl_cons, h, he]
      · right; rw [List.foldl_cons, h, he]; exact List.mem_cons_self _ _
    · right; exact List.mem_cons_of_mem _ h

theorem npMin_eq_none_iff {xs : List ℚ} : npMin xs = none ↔ xs = [] := by
  cases xs <;> simp [npMin]

theorem npMax_eq_none_iff {xs : List ℚ} : npMax xs = none ↔ xs = [] := by
  cases xs <;> simp [npMax]

theorem npMin_le_of_mem {xs : List ℚ} {m x : ℚ} (hm : npMin xs = some m) (hx : x ∈ xs) :
    m ≤ x := by
  rcases xs with _ | ⟨y, ys⟩
  · cases hx
  · rw [npMin] at hm
    rcases List.mem_cons.mp hx with rfl | hx2
    · exact (Option.some_injective _ hm) ▸ foldl_min_le_init ys x
    · exact (Option.some_injective _ hm) ▸ foldl_min_le_mem ys y hx2

theorem le_npMax_of_mem {xs : List ℚ} {M x : ℚ} (hM : npMax xs = some M) (hx : x ∈ xs) :
    x ≤ M := by
  rcases xs with _ | ⟨y, ys⟩
  · cases hx
  · rw [npMax] at hM
    rcases List.mem_cons.mp hx with rfl | hx2
    · exact (Option.some_injective _ hM) ▸ init_le_foldl_max ys x
    · exact (Option.some_injective _ hM) ▸ mem_le_foldl_max ys y hx2

theorem npMin_mem {xs : List ℚ} {m : ℚ} (hm : npMin xs = some m) : m ∈ xs := by
  rcases xs with _ | ⟨y, ys⟩
  · cases hm
  · rw [npMin] at hm
    have hm2 := Option.some_injective _ hm
    rcases foldl_min_mem ys y with h | h
    · rw [← hm2, h]; exact List.mem_cons_self _ _
    · rw [← hm2]; exact List.mem_cons_of_mem _ h

theorem npMax_mem {xs : List ℚ} {M : ℚ} (hM : npMax xs = some M) : M ∈ xs := by
  rcases xs with _ | ⟨y, ys⟩
  · cases hM
  · rw [npMax] at hM
    have hM2 := Option.some_injective _ hM
    rcases foldl_max_mem ys y with h | h
    · rw [← hM2, h]; exact List.mem_cons_self _ _
    · rw [← hM2]; exact List.mem_cons_of_mem _ h

theorem getD_all_of_lt {xs : List ℚ} {c d : ℚ} (hc : ∀ x ∈ xs, x = c) {n : ℕ}
    (hn : n < xs.length) : xs.getD n d = c := by
  induction xs generalizing n with
  | nil => cases hn
  | cons y ys ih =>
    cases n with
    | zero => rw [List.getD_cons_zero]; exact hc y (List.mem_cons_self _ _)
    | succ k =>
      rw [List.getD_cons_succ]
      exact ih (fun x hx => hc x (List.mem_cons_of_mem _ hx)) (Nat.lt_of_succ_lt_succ hn)

theorem getD_all {xs : List ℚ} {c d : ℚ} (hc : ∀ x ∈ xs, x = c) (n : ℕ) :
    xs.getD n d = c ∨ xs.getD n d = d := by
  rcases Nat.lt_or_ge n xs.length with h | h
  · exact Or.inl (getD_all_of_lt hc h)
  · right
    induction xs generalizing n with
    | nil => cases n <;> rfl
    | cons y ys ih =>
      cases n with
      | zero => cases h
      | succ k =>
        rw [List.getD_cons_succ]
        exact ih (fun x hx => hc x (List.mem_cons_of_mem _ hx)) _
          (Nat.le_of_succ_le_succ h)

/-- On a list all of whose samples equal `c`, any percentile between 0 and
100 is `c` itself: the linear interpolation collapses. -/
theorem npPercentile_const {xs : List ℚ} {c : ℚ} (hne : xs ≠ []) (hc : ∀ x ∈ xs, x = c)
    {q : ℚ} (hq0 : 0 ≤ q) (hq1 : q ≤ 100) : npPercentile xs q = some c := by
  rw [npPercentile]
  rcases h : sortAsc xs with _ | ⟨y, ys⟩
  · exact absurd (sortAsc_eq_nil_iff.mp h) hne
  · dsimp only
    have hcs : ∀ x ∈ y :: ys, x = c := by
      intro x hx
      exact hc x (mem_sortAsc.mp (h ▸ hx))
    have hlen : 0 < (y :: ys).length := Nat.succ_pos _
    set n : ℕ := (y :: ys).length with hn
    set v : ℚ := q / 100 * ((n : ℚ) - 1) with hv
    have hv_le : v ≤ (n : ℚ) - 1 := by
      have h100 : q / 100 ≤ 1 := by
        rw [div_le_one (by norm_num : (0:ℚ) < 100)]
        exact hq1
      have hn1 : (0:ℚ) ≤ (n : ℚ) - 1 := by
        have : (1:ℚ) ≤ (n : ℚ) := by exact_mod_cast hlen
        linarith
      calc v = q / 100 * ((n : ℚ) - 1) := hv
        _ ≤ 1 * ((n : ℚ) - 1) := by
            exact mul_le_mul_of_nonneg_right h100 hn1
        _ = (n : ℚ) - 1 := one_mul _
    have hfloor : (⌊v⌋).toNat < n := by
      have h1 : ⌊v⌋ ≤ (n : ℤ) - 1 := by
        have : ((n : ℤ) - 1 : ℤ) = ⌊((n : ℚ) - 1 : ℚ)⌋ := by
          rw [show ((n : ℚ) - 1 : ℚ) = (((n : ℤ) - 1 : ℤ) : ℚ) by push_cast; ring]
          rw [Int.floor_intCast]
        rw [this]
        exact Int.floor_le_floor hv_le
      have h2 : (⌊v⌋).toNat ≤ n - 1 := by
        rw [Int.toNat_le]
        calc ⌊v⌋ ≤ (n : ℤ) - 1 := h1
          _ = ((n - 1 : ℕ) : ℤ) := by
              have : 1 ≤ n := hlen
              push_cast [this]
              ring
      exact Nat.lt_of_le_of_lt h2 (Nat.sub_lt hlen Nat.one_pos)
    have ha : (y :: ys).getD (⌊v⌋).toNat 0 = c := getD_all_of_lt hcs hfloor
    rw [ha]
    rcases getD_all hcs ((⌊v⌋).toNat + 1) (d := c) with hb | hb <;>
      rw [hb] <;> simp

theorem npPow_of_nonneg {x a : ℝ} (hx : 0 ≤ x) (h : ¬(x = 0 ∧ a < 0)) :
    npPow x a = some (x ^ a) := by
  rw [npPow, if_neg (not_lt.mpr hx), if_neg h]

theorem npPow_of_nonneg_of_pos {x a : ℝ} (hx : 0 ≤ x) (ha : 0 < a) :
    npPow x a = some (x ^ a) :=
  npPow_of_nonneg hx (fun hcon => absurd ha (not_lt.mpr hcon.2.le))

/-! ## Shape of `prescale` -/

theorem prescale_eq {g : Qgrid} {p2 p98 m M : ℚ}
    (h2 : npPercentile (gridElems g) 2 = some p2)
    (h98 : npPercentile (gridElems g) 98 = some p98)
    (hm : npMin (gridElems (clipGrid g p2 p98)) = some m)
    (hM : npMax (gridElems (clipGrid g p2 p98)) = some M) :
    prescale g =
      some (if M > m then rescaleGrid (clipGrid g p2 p98) m M else clipGrid g p2 p98) := by
  rw [prescale, h2, h98]
  dsimp only
  rw [hm, hM]

theorem prescale_eq_none_iff {g : Qgrid} : prescale g = none ↔ gridElems g = [] := by
  constructor
  · intro h
    by_contra hne
    rcases hp2 : npPercentile (gridElems g) 2 with _ | p2
    · exact hne (npPercentile_eq_none_iff.mp hp2)
    rcases hp98 : npPercentile (gridElems g) 98 with _ | p98
    · exact hne (npPercentile_eq_none_iff.mp hp98)
    rcases hm : npMin (gridElems (clipGrid g p2 p98)) with _ | m
    · exact hne (gridElems_clipGrid_eq_nil_iff.mp (npMin_eq_none_iff.mp hm))
    rcases hM : npMax (gridElems (clipGrid g p2 p98)) with _ | M
    · exact hne (gridElems_clipGrid_eq_nil_iff.mp (npMax_eq_none_iff.mp hM))
    rw [prescale_eq hp2 hp98 hm hM] at h
    cases h
  · intro h
    rw [prescale, npPercentile_eq_none_iff.mpr h]

theorem prescale_isSome {g : Qgrid} (hne : gridElems g ≠ []) :
    ∃ q, prescale g = some q := by
  rcases h : prescale g with _ | q
  · exact absurd (prescale_eq_none_iff.mp h) hne
  · exact ⟨q, rfl⟩

theorem mapGrid_dims (g : Qgrid) (f : ℚ → ℚ) :
    (g.map (List.map f)).map List.length = g.map List.length := by
  rw [List.map_map]
  exact List.map_congr_left (fun row _ => List.length_map row f)

theorem prescale_dims {g q : Qgrid} (h : prescale g = some q) :
    q.map List.length = g.map List.length := by
  rcases hp2 : npPercentile (gridElems g) 2 with _ | p2
  · rw [prescale, hp2] at h; cases h
  rcases hp98 : npPercentile (gridElems g) 98 with _ | p98
  · rw [prescale, hp2, hp98] at h; cases h
  rcases hm : npMin (gridElems (clipGrid g p2 p98)) with _ | m
  · rw [prescale, hp2, hp98] at h; dsimp only at h; rw [hm] at h; cases h
  rcases hM : npMax (gridElems (clipGrid g p2 p98)) with _ | M
  · rw [prescale, hp2, hp98] at h; dsimp only at h; rw [hm, hM] at h; cases h
  rw [prescale_eq hp2 hp98 hm hM] at h
  have hq := (Option.some_injective _ h).symm
  by_cases hlt : M > m
  · rw [hq, if_pos hlt, rescaleGrid, clipGrid, mapGrid_dims, mapGrid_dims]
  · rw [hq, if_neg hlt, clipGrid, mapGrid_dims]

theorem gammaGrid_dims (g : Qgrid) (a : ℝ) :
    (gammaGrid g a).map List.length = g.map List.length := by
  rw [gammaGrid, List.map_map]
  exact List.map_congr_left (fun row _ => List.length_map row _)

/-- In the non-degenerate branch the rescaled samples all lie in `[0, 1]`. -/
theorem rescale_mem_Icc {g : Qgrid} {m M : ℚ}
    (hm : npMin (gridElems g) = some m) (hM : npMax (gridElems g) = some M)
    (hlt : m < M) : ∀ x ∈ gridElems (rescaleGrid g m M), 0 ≤ x ∧ x ≤ 1 := by
  intro x hx
  rw [gridElems_rescaleGrid] at hx
  rcases List.mem_map.mp hx with ⟨y, hy, rfl⟩
  have h1 := npMin_le_of_mem hm hy
  have h2 := le_npMax_of_mem hM hy
  have hpos : (0:ℚ) < M - m := by linarith
  refine ⟨div_nonneg (by linarith) hpos.le, ?_⟩
  rw [div_le_one hpos]
  linarith

theorem gammaGrid_forall {g : Qgrid} {a : ℝ} {P : Option ℝ → Prop}
    (h : ∀ x ∈ gridElems g, P (npPow (x : ℝ) a)) :
    ∀ row ∈ gammaGrid g a, ∀ v ∈ row, P v := by
  intro row hrow v hv
  rcases List.mem_map.mp hrow with ⟨qrow, hqrow, rfl⟩
  rcases List.mem_map.mp hv with ⟨x, hx, rfl⟩
  exact h x (List.mem_flatten.mpr ⟨qrow, hqrow, hx⟩)

/-! ## Claim C4: the code refines the spec's seven-step algorithm -/

theorem specPercentile_eq_npPercentile (xs : List ℚ) (q : ℚ) :
    specPercentile xs q = npPercentile xs q := by
  rw [specPercentile, npPercentile]
  rcases h : sortAsc xs with _ | ⟨y, ys⟩ <;> simp [h]

/-- C4: `normalize_image` executes exactly, and in order, the spec's
seven-step reference algorithm: widen, take the 2nd/98th percentiles by
linear interpolation between closest ranks, clamp into `[p_low, p_high]`,
recompute min and max from the clipped grid, skip the division when
`max ≤ min`, otherwise rescale by `(value - min)/(max - min)`, and finally
raise to the contrast exponent. -/
theorem C4_normalize_refines_spec : ∀ (g : Qgrid) (a : ℝ),
    normalize_image g a = spec_normalize g a := by
  intro g a
  rw [normalize_image, spec_normalize]
  simp only [specConvert, specPercentile_eq_npPercentile]
  rcases hp2 : npPercentile (gridElems g) 2 with _ | p2
  · rw [prescale, hp2]
  rcases hp98 : npPercentile (gridElems g) 98 with _ | p98
  · rw [prescale, hp2, hp98]
  dsimp only
  have hclip : (g.map (List.map (specClamp p2 p98))) = clipGrid g p2 p98 := rfl
  rw [hclip]
  rcases hm : npMin (gridElems (clipGrid g p2 p98)) with _ | m
  · rw [prescale, hp2, hp98]
    dsimp only
    rw [hm]
  rcases hM : npMax (gridElems (clipGrid g p2 p98)) with _ | M
  · rw [prescale, hp2, hp98]
    dsimp only
    rw [hm, hM]
  rw [prescale_eq hp2 hp98 hm hM]
  dsimp only [gammaGrid, specScale]
  rcases le_or_lt M m with h | h
  · rw [if_neg (not_lt.mpr h), if_pos h]
  · rw [if_pos h, if_neg (not_le.mpr h)]
    rfl

/-! ## Claim C5: boundedness in the non-degenerate path -/

/-- C5: for every raw grid that is non-degenerate after clipping (the
clipped maximum `M` strictly exceeds the clipped minimum `m`) and every
contrast exponent `a > 0`, `normalize_image` succeeds and every entry of
the returned grid is a finite value in the closed interval `[0, 1]`. -/
theorem C5_nondegenerate_bounded {g : Qgrid} {p2 p98 m M : ℚ} {a : ℝ}
    (h2 : npPercentile (gridElems g) 2 = some p2)
    (h98 : npPercentile (gridElems g) 98 = some p98)
    (hm : npMin (gridElems (clipGrid g p2 p98)) = some m)
    (hM : npMax (gridElems (clipGrid g p2 p98)) = some M)
    (hlt : m < M) (ha : 0 < a) :
    ∃ out, normalize_image g a = .ok out ∧
      ∀ row ∈ out, ∀ v ∈ row, ∃ r : ℝ, v = some r ∧ 0 ≤ r ∧ r ≤ 1 := by
  have hps := prescale_eq h2 h98 hm hM
  rw [if_pos hlt] at hps
  refine ⟨gammaGrid (rescaleGrid (clipGrid g p2 p98) m M) a, ?_, ?_⟩
  · rw [normalize_image, hps]
  · apply gammaGrid_forall
    intro x hx
    obtain ⟨hx0, hx1⟩ := rescale_mem_Icc hm hM hlt x hx
    have hx0R : (0:ℝ) ≤ (x : ℝ) := by exact_mod_cast hx0
    have hx1R : (x : ℝ) ≤ 1 := by exact_mod_cast hx1
    exact ⟨(x : ℝ) ^ a, npPow_of_nonneg_of_pos hx0R ha,
      Real.rpow_nonneg hx0R a, Real.rpow_le_one hx0R hx1R ha.le⟩

/-! ## Claim C6: flat grids take the degenerate path and stay constant -/

theorem npMin_const {xs : List ℚ} {c : ℚ} (hne : xs ≠ []) (hc : ∀ x ∈ xs, x = c) :
    npMin xs = some c := by
  rcases hm : npMin xs with _ | m
  · exact absurd (npMin_eq_none_iff.mp hm) hne
  · rw [hc m (npMin_mem hm)]

theorem npMax_const {xs : List ℚ} {c : ℚ} (hne : xs ≠ []) (hc : ∀ x ∈ xs, x = c) :
    npMax xs = some c := by
  rcases hM : npMax xs with _ | M
  · exact absurd (npMax_eq_none_iff.mp hM) hne
  · rw [hc M (npMax_mem hM)]

theorem clipGrid_const {g : Qgrid} {c : ℚ} (hc : ∀ x ∈ gridElems g, x = c) :
    clipGrid g c c = g := by
  rw [clipGrid]
  have : ∀ row ∈ g, List.map (npClip c c) row = row := by
    intro row hrow
    have : ∀ x ∈ row, npClip c c x = x := by
      intro x hx
      rw [hc x (List.mem_flatten.mpr ⟨row, hrow, hx⟩), npClip, max_self, min_self]
    calc List.map (npClip c c) row = List.map id row := List.map_congr_left this
      _ = row := List.map_id row
  calc g.map (List.map (npClip c c)) = g.map id := List.map_congr_left this
    _ = g := List.map_id g

/-- C6: on a grid every sample of which equals one constant `c` (and any
positive contrast exponent), `normalize_image` takes the degenerate-range
path — the grid reaching the gamma step is the clipped, unscaled grid,
which equals the input itself — and the output grid is constant: every
entry equals `np.power(c, a)`. -/
theorem C6_flat_constant {g : Qgrid} {c : ℚ} {a : ℝ}
    (hne : gridElems g ≠ []) (hc : ∀ x ∈ gridElems g, x = c) (ha : 0 < a) :
    prescale g = some g ∧
    ∃ out, normalize_image g a = .ok out ∧
      ∀ row ∈ out, ∀ v ∈ row, v = npPow (c : ℝ) a := by
  have h2 : npPercentile (gridElems g) 2 = some c :=
    npPercentile_const hne hc (by norm_num) (by norm_num)
  have h98 : npPercentile (gridElems g) 98 = some c :=
    npPercentile_const hne hc (by norm_num) (by norm_num)
  have hclip : clipGrid g c c = g := clipGrid_const hc
  have hm : npMin (gridElems (clipGrid g c c)) = some c := by
    rw [hclip]; exact npMin_const hne hc
  have hM : npMax (gridElems (clipGrid g c c)) = some c := by
    rw [hclip]; exact npMax_const hne hc
  have hps : prescale g = some g := by
    rw [prescale_eq h2 h98 hm hM, if_neg (lt_irrefl c), hclip]
  refine ⟨hps, gammaGrid g a, by rw [normalize_image, hps], ?_⟩
  apply gammaGrid_forall
  intro x hx
  rw [hc x hx]

/-! ## Claim C1: what `normalize_image` does guarantee on finite input -/

/-- C1 (amended): for every nonempty grid of finite samples and every
positive contrast exponent, `normalize_image` returns (rather than
failing) a grid of exactly the same dimensions; and whenever the clipped
grid is non-degenerate, every entry is additionally a finite value in
`[0, 1]`.  (The unconditional `[0, 1]`/no-NaN guarantee of the original
claim is false on the code: see the counterexample.) -/
theorem C1_normalize_dims {g : Qgrid} {a : ℝ} (hne : gridElems g ≠ []) (ha : 0 < a) :
    ∃ out, normalize_image g a = .ok out ∧
      out.map List.length = g.map List.length := by
  obtain ⟨q, hq⟩ := prescale_isSome hne
  refine ⟨gammaGrid q a, by rw [normalize_image, hq], ?_⟩
  rw [gammaGrid_dims, prescale_dims hq]

/-! ## Claim C7: monotonicity in the contrast exponent -/

/-- C7 (amended): for a fixed raw grid that is non-degenerate after
clipping and exponents `0 < a < b`, the two runs of `normalize_image`
apply the gamma step to the same pre-gamma grid, whose samples all lie in
`[0, 1]`; entrywise the output at `b` is `≤` the output at `a`, strictly
so whenever the pre-gamma sample lies strictly between 0 and 1.  (Without
the non-degeneracy restriction the claim is false: see the
counterexample.) -/
theorem C7_gamma_antitone {g : Qgrid} {p2 p98 m M : ℚ} {a b : ℝ}
    (h2 : npPercentile (gridElems g) 2 = some p2)
    (h98 : npPercentile (gridElems g) 98 = some p98)
    (hm : npMin (gridElems (clipGrid g p2 p98)) = some m)
    (hM : npMax (gridElems (clipGrid g p2 p98)) = some M)
    (hlt : m < M) (ha : 0 < a) (hab : a < b) :
    ∃ q, prescale g = some q ∧
      normalize_image g a = .ok (gammaGrid q a) ∧
      normalize_image g b = .ok (gammaGrid q b) ∧
      ∀ x ∈ gridElems q, ∃ ra rb : ℝ,
        npPow (x : ℝ) a = some ra ∧ npPow (x : ℝ) b = some rb ∧
        rb ≤ ra ∧ (0 < x → x < 1 → rb < ra) := by
  have hps := prescale_eq h2 h98 hm hM
  rw [if_pos hlt] at hps
  have hb : 0 < b := ha.trans hab
  refine ⟨rescaleGrid (clipGrid g p2 p98) m M, hps,
    by rw [normalize_image, hps], by rw [normalize_image, hps], ?_⟩
  intro x hx
  obtain ⟨hx0, hx1⟩ := rescale_mem_Icc hm hM hlt x hx
  have hx0R : (0:ℝ) ≤ (x : ℝ) := by exact_mod_cast hx0
  have hx1R : (x : ℝ) ≤ 1 := by exact_mod_cast hx1
  refine ⟨(x : ℝ) ^ a, (x : ℝ) ^ b, npPow_of_nonneg_of_pos hx0R ha,
    npPow_of_nonneg_of_pos hx0R hb, ?_, ?_⟩
  · rcases eq_or_lt_of_le hx0R with hzero | hpos
    · rw [← hzero, Real.zero_rpow (ne_of_gt ha), Real.zero_rpow (ne_of_gt hb)]
    · exact Real.rpow_le_rpow_of_exponent_ge hpos hx1R hab.le
  · intro hxpos hxlt
    have hposR : (0:ℝ) < (x : ℝ) := by exact_mod_cast hxpos
    have hltR : (x : ℝ) < 1 := by exact_mod_cast hxlt
    exact Real.rpow_lt_rpow_of_exponent_gt hposR hltR hab

/-! ## Claim C2: the actual failure surface of `normalize_image` -/

/-- C2 (amended): `normalize_image` raises no `InvalidInput` error — the
code defines none.  Over finite-valued grids it fails (with numpy's own
error escaping from `np.percentile`) exactly when the raw grid has no
samples; a non-positive contrast exponent is accepted and produces an
ordinary result. -/
theorem C2_error_iff_empty : ∀ (g : Qgrid) (a : ℝ),
    (∃ e, normalize_image g a = .error e) ↔ gridElems g = [] := by
  intro g a
  constructor
  · rintro ⟨e, he⟩
    by_contra hne
    obtain ⟨q, hq⟩ := prescale_isSome hne
    rw [normalize_image, hq] at he
    cases he
  · intro h
    refine ⟨.emptyPercentile, ?_⟩
    rw [normalize_image, prescale_eq_none_iff.mpr h]

/-! ## Concrete evaluations of the pipeline -/

theorem npPow_zero_one : npPow (0:ℝ) 1 = some 0 := by
  rw [npPow_of_nonneg_of_pos le_rfl one_pos, Real.rpow_one]

theorem npPow_one_one : npPow (1:ℝ) 1 = some 1 := by
  rw [npPow_of_nonneg_of_pos (by norm_num) one_pos, Real.rpow_one]

theorem npPow_two_one : npPow (2:ℝ) 1 = some 2 := by
  rw [npPow_of_nonneg_of_pos (by norm_num) one_pos, Real.rpow_one]

theorem npPow_zero_zero : npPow (0:ℝ) 0 = some 1 := by
  rw [npPow_of_nonneg le_rfl (by simp), Real.rpow_zero]

theorem npPow_one_zero : npPow (1:ℝ) 0 = some 1 := by
  rw [npPow_of_nonneg (by norm_num) (by simp), Real.rpow_zero]

theorem npPow_c500_one : npPow (500:ℝ) 1 = some 500 := by
  rw [npPow_of_nonneg_of_pos (by norm_num) one_pos, Real.rpow_one]

theorem npPow_c500_two : npPow (500:ℝ) 2 = some 250000 := by
  rw [npPow_of_nonneg_of_pos (by norm_num) (by norm_num)]
  rw [show (2:ℝ) = ((2:ℕ):ℝ) by norm_num, Real.rpow_natCast]
  norm_num

theorem pG0_2 : npPercentile (gridElems [[0],[1]]) 2 = some (1/50) := by
  rw [show gridElems [[(0:ℚ)],[1]] = [0,1] from rfl, npPercentile]
  rw [show sortAsc [(0:ℚ),1] = [0,1] from by
    norm_num [sortAsc, List.insertionSort, List.orderedInsert]]
  norm_num [List.getD, show Int.toNat 0 = 0 from rfl]

theorem pG0_98 : npPercentile (gridElems [[0],[1]]) 98 = some (49/50) := by
  rw [show gridElems [[(0:ℚ)],[1]] = [0,1] from rfl, npPercentile]
  rw [show sortAsc [(0:ℚ),1] = [0,1] from by
    norm_num [sortAsc, List.insertionSort, List.orderedInsert]]
  norm_num [List.getD, show Int.toNat 0 = 0 from rfl]

theorem clipG0 : clipGrid [[0],[1]] (1/50) (49/50) = [[1/50],[49/50]] := by
  norm_num [clipGrid, npClip, min_def, max_def]

theorem mG0 : npMin (gridElems (clipGrid [[0],[1]] (1/50) (49/50))) = some (1/50) := by
  rw [clipG0, show gridElems [[(1/50:ℚ)],[49/50]] = [1/50, 49/50] from rfl, npMin]
  norm_num [List.foldl, min_def]

theorem MG0 : npMax (gridElems (clipGrid [[0],[1]] (1/50) (49/50))) = some (49/50) := by
  rw [clipG0, show gridElems [[(1/50:ℚ)],[49/50]] = [1/50, 49/50] from rfl, npMax]
  norm_num [List.foldl, max_def]

theorem pG1_2 : npPercentile (gridElems [[2]]) 2 = some 2 := by
  rw [show gridElems [[(2:ℚ)]] = [2] from rfl, npPercentile]
  rw [show sortAsc [(2:ℚ)] = [2] from by
    norm_num [sortAsc, List.insertionSort, List.orderedInsert]]
  norm_num [List.getD, show Int.toNat 0 = 0 from rfl]

theorem pG1_98 : npPercentile (gridElems [[2]]) 98 = some 2 := by
  rw [show gridElems [[(2:ℚ)]] = [2] from rfl, npPercentile]
  rw [show sortAsc [(2:ℚ)] = [2] from by
    norm_num [sortAsc, List.insertionSort, List.orderedInsert]]
  norm_num [List.getD, show Int.toNat 0 = 0 from rfl]

theorem clipG1 : clipGrid [[2]] 2 2 = [[2]] := by
  norm_num [clipGrid, npClip, min_def, max_def]

theorem mG1 : npMin (gridElems (clipGrid [[2]] 2 2)) = some 2 := by
  rw [clipG1, show gridElems [[(2:ℚ)]] = [2] from rfl, npMin]
  norm_num [List.foldl]

theorem MG1 : npMax (gridElems (clipGrid [[2]] 2 2)) = some 2 := by
  rw [clipG1, show gridElems [[(2:ℚ)]] = [2] from rfl, npMax]
  norm_num [List.foldl]

theorem prescale_G1 : prescale [[2]] = some [[2]] := by
  rw [prescale_eq pG1_2 pG1_98 mG1 MG1, if_neg (lt_irrefl (2:ℚ)), clipG1]

theorem pG2_2 : npPercentile (gridElems [[0],[2]]) 2 = some (1/25) := by
  rw [show gridElems [[(0:ℚ)],[2]] = [0,2] from rfl, npPercentile]
  rw [show sortAsc [(0:ℚ),2] = [0,2] from by
    norm_num [sortAsc, List.insertionSort, List.orderedInsert]]
  norm_num [List.getD, show Int.toNat 0 = 0 from rfl]

theorem pG2_98 : npPercentile (gridElems [[0],[2]]) 98 = some (49/25) := by
  rw [show gridElems [[(0:ℚ)],[2]] = [0,2] from rfl, npPercentile]
  rw [show sortAsc [(0:ℚ),2] = [0,2] from by
    norm_num [sortAsc, List.insertionSort, List.orderedInsert]]
  norm_num [List.getD, show Int.toNat 0 = 0 from rfl]

theorem clipG2 : clipGrid [[0],[2]] (1/25) (49/25) = [[1/25],[49/25]] := by
  norm_num [clipGrid, npClip, min_def, max_def]

theorem mG2 : npMin (gridElems (clipGrid [[0],[2]] (1/25) (49/25))) = some (1/25) := by
  rw [clipG2, show gridElems [[(1/25:ℚ)],[49/25]] = [1/25, 49/25] from rfl, npMin]
  norm_num [List.foldl, min_def]

theorem MG2 : npMax (gridElems (clipGrid [[0],[2]] (1/25) (49/25))) = some (49/25) := by
  rw [clipG2, show gridElems [[(1/25:ℚ)],[49/25]] = [1/25, 49/25] from rfl, npMax]
  norm_num [List.foldl, max_def]

theorem prescale_G2 : prescale [[0],[2]] = some [[0],[1]] := by
  rw [prescale_eq pG2_2 pG2_98 mG2 MG2, if_pos (by norm_num : (1/25:ℚ) < 49/25), clipG2]
  norm_num [rescaleGrid]

theorem pG3_2 : npPercentile (gridElems [[0,0,0],[0,100,0],[0,0,0]]) 2 = some 0 := by
  rw [show gridElems [[(0:ℚ),0,0],[0,100,0],[0,0,0]] = [0,0,0,0,100,0,0,0,0] from rfl,
    npPercentile]
  rw [show sortAsc [(0:ℚ),0,0,0,100,0,0,0,0] = [0,0,0,0,0,0,0,0,100] from by
    norm_num [sortAsc, List.insertionSort, List.orderedInsert]]
  norm_num [List.getD, show Int.toNat 0 = 0 from rfl]

theorem pG3_98 : npPercentile (gridElems [[0,0,0],[0,100,0],[0,0,0]]) 98 = some 84 := by
  rw [show gridElems [[(0:ℚ),0,0],[0,100,0],[0,0,0]] = [0,0,0,0,100,0,0,0,0] from rfl,
    npPercentile]
  rw [show sortAsc [(0:ℚ),0,0,0,100,0,0,0,0] = [0,0,0,0,0,0,0,0,100] from by
    norm_num [sortAsc, List.insertionSort, List.orderedInsert]]
  norm_num [List.getD, show Int.toNat 7 = 7 from rfl]

theorem clipG3 : clipGrid [[0,0,0],[0,100,0],[0,0,0]] 0 84 = [[0,0,0],[0,84,0],[0,0,0]] := by
  norm_num [clipGrid, npClip, min_def, max_def]

theorem mG3 : npMin (gridElems (clipGrid [[0,0,0],[0,100,0],[0,0,0]] 0 84)) = some 0 := by
  rw [clipG3, show gridElems [[(0:ℚ),0,0],[0,84,0],[0,0,0]] = [0,0,0,0,84,0,0,0,0] from rfl,
    npMin]
  norm_num [List.foldl, min_def]

theorem MG3 : npMax (gridElems (clipGrid [[0,0,0],[0,100,0],[0,0,0]] 0 84)) = some 84 := by
  rw [clipG3, show gridElems [[(0:ℚ),0,0],[0,84,0],[0,0,0]] = [0,0,0,0,84,0,0,0,0] from rfl,
    npMax]
  norm_num [List.foldl, max_def]

theorem prescale_G3 :
    prescale [[0,0,0],[0,100,0],[0,0,0]] = some [[0,0,0],[0,1,0],[0,0,0]] := by
  rw [prescale_eq pG3_2 pG3_98 mG3 MG3, if_pos (by norm_num : (0:ℚ) < 84), clipG3]
  norm_num [rescaleGrid]

theorem pG5_2 : npPercentile (gridElems [[500]]) 2 = some 500 := by
  rw [show gridElems [[(500:ℚ)]] = [500] from rfl, npPercentile]
  rw [show sortAsc [(500:ℚ)] = [500] from by
    norm_num [sortAsc, List.insertionSort, List.orderedInsert]]
  norm_num [List.getD, show Int.toNat 0 = 0 from rfl]

theorem pG5_98 : npPercentile (gridElems [[500]]) 98 = some 500 := by
  rw [show gridElems [[(500:ℚ)]] = [500] from rfl, npPercentile]
  rw [show sortAsc [(500:ℚ)] = [500] from by
    norm_num [sortAsc, List.insertionSort, List.orderedInsert]]
  norm_num [List.getD, show Int.toNat 0 = 0 from rfl]

theorem clipG5 : clipGrid [[500]] 500 500 = [[500]] := by
  norm_num [clipGrid, npClip, min_def, max_def]

theorem mG5 : npMin (gridElems (clipGrid [[500]] 500 500)) = some 500 := by
  rw [clipG5, show gridElems [[(500:ℚ)]] = [500] from rfl, npMin]
  norm_num [List.foldl]

theorem MG5 : npMax (gridElems (clipGrid [[500]] 500 500)) = some 500 := by
  rw [clipG5, show gridElems [[(500:ℚ)]] = [500] from rfl, npMax]
  norm_num [List.foldl]

theorem prescale_G5 : prescale [[500]] = some [[500]] := by
  rw [prescale_eq pG5_2 pG5_98 mG5 MG5, if_neg (lt_irrefl (500:ℚ)), clipG5]

/-! ## Counterexamples and witnesses for the normalizer claims -/

/-- C1 counterexample: the flat grid `[[2]]` (one finite value, exponent
1) is returned unchanged — its entry 2 lies outside `[0, 1]`, refuting
the unconditional range guarantee. -/
theorem C1_counterexample :
    normalize_image [[2]] 1 = .ok [[some (2:ℝ)]] ∧ ¬((2:ℝ) ≤ 1) := by
  refine ⟨?_, by norm_num⟩
  rw [normalize_image, prescale_G1]
  simp [gammaGrid, npPow_two_one]

/-- C1 witness at the grid `[[0],[1]]` with exponent 1. -/
theorem C1_witness :
    ∃ out, normalize_image [[0],[1]] 1 = .ok out ∧
      out.map List.length = [[(0:ℚ)],[1]].map List.length :=
  C1_normalize_dims (by simp [gridElems]) one_pos

/-- C2 counterexample: `contrast_exponent = 0 ≤ 0`, yet `normalize_image`
does not fail — it returns the all-ones grid. -/
theorem C2_counterexample :
    normalize_image [[0],[2]] 0 = .ok [[some (1:ℝ)],[some (1:ℝ)]] ∧ (0:ℝ) ≤ 0 := by
  refine ⟨?_, le_rfl⟩
  rw [normalize_image, prescale_G2]
  simp [gammaGrid, npPow_zero_zero, npPow_one_zero]

/-- C3 counterexample: on `[[0,0,0],[0,100,0],[0,0,0]]` with exponent 1
the output is not the all-zero grid the spec's worked example predicts. -/
theorem C3_counterexample :
    normalize_image [[0,0,0],[0,100,0],[0,0,0]] 1 ≠
      .ok [[some 0, some 0, some 0], [some 0, some 0, some 0], [some 0, some 0, some 0]] := by
  rw [normalize_image, prescale_G3]
  simp [gammaGrid, npPow_zero_one, npPow_one_one]

/-- C3 (amended): on `[[0,0,0],[0,100,0],[0,0,0]]` with exponent 1 the
98th percentile is 84 (not 0), so the clip bounds are `[0, 84]`, the
non-degenerate path runs, and the output is `[[0,0,0],[0,1,0],[0,0,0]]`
(the single 100 clips to 84 and rescales to 1). -/
theorem C3_example_output :
    npPercentile (gridElems [[0,0,0],[0,100,0],[0,0,0]]) 98 = some 84 ∧
    normalize_image [[0,0,0],[0,100,0],[0,0,0]] 1 =
      .ok [[some 0, some 0, some 0], [some 0, some 1, some 0], [some 0, some 0, some 0]] := by
  refine ⟨pG3_98, ?_⟩
  rw [normalize_image, prescale_G3]
  simp [gammaGrid, npPow_zero_one, npPow_one_one]

/-- C5 witness at the grid `[[0],[1]]` with exponent 1. -/
theorem C5_witness :
    ∃ out, normalize_image [[0],[1]] 1 = .ok out ∧
      ∀ row ∈ out, ∀ v ∈ row, ∃ r : ℝ, v = some r ∧ 0 ≤ r ∧ r ≤ 1 :=
  C5_nondegenerate_bounded pG0_2 pG0_98 mG0 MG0 (by norm_num) one_pos

/-- C6 witness at the flat grid `[[5,5],[5,5]]` with exponent 1. -/
theorem C6_witness :
    prescale [[5,5],[5,5]] = some [[5,5],[5,5]] ∧
    ∃ out, normalize_image [[5,5],[5,5]] 1 = .ok out ∧
      ∀ row ∈ out, ∀ v ∈ row, v = npPow ((5:ℚ) : ℝ) 1 :=
  C6_flat_constant (by simp [gridElems])
    (by intro x hx; simp [gridElems] at hx; exact hx) one_pos

/-- C7 counterexample: the flat grid `[[500]]` is degenerate after
clipping; raising the exponent from 1 to 2 increases the output entry
from 500 to 250000, refuting the unconditional entrywise antitonicity. -/
theorem C7_counterexample :
    normalize_image [[500]] 1 = .ok [[some (500:ℝ)]] ∧
    normalize_image [[500]] 2 = .ok [[some (250000:ℝ)]] ∧
    ¬((250000:ℝ) ≤ 500) := by
  refine ⟨?_, ?_, by norm_num⟩
  · rw [normalize_image, prescale_G5]
    simp [gammaGrid, npPow_c500_one]
  · rw [normalize_image, prescale_G5]
    simp [gammaGrid, npPow_c500_two]

/-- C7 witness at the grid `[[0],[1]]` with exponents 1 < 2. -/
theorem C7_witness :
    ∃ q, prescale [[(0:ℚ)],[1]] = some q ∧
      normalize_image [[0],[1]] 1 = .ok (gammaGrid q 1) ∧
      normalize_image [[0],[1]] 2 = .ok (gammaGrid q 2) ∧
      ∀ x ∈ gridElems q, ∃ ra rb : ℝ,
        npPow (x : ℝ) 1 = some ra ∧ npPow (x : ℝ) 2 = some rb ∧
        rb ≤ ra ∧ (0 < x → x < 1 → rb < ra) :=
  C7_gamma_antitone pG0_2 pG0_98 mG0 MG0 (by norm_num) one_pos (by norm_num)

/-! ## Claim C9: file discovery -/

theorem find_dicom_files_eq_filter (entries : List FileEntry) :
    find_dicom_files entries = (entries.filter isDicomCandidate).map FileEntry.path := by
  induction entries with
  | nil => rfl
  | cons e es ih =>
    rw [find_dicom_files] at ih ⊢
    rw [List.filterMap_cons, List.filter_cons]
    by_cases h : isDicomCandidate e
    · rw [if_pos h, if_pos h, List.map_cons, ih]
    · rw [if_neg h, if_neg h, ih]

/-- C9 (amended): `find_dicom_files` returns, in traversal order, exactly
the paths of the regular files whose lower-cased extension is
`.dcm`/`.dicom` (or which have no extension) and which `pydicom` parses;
in particular every such parsing file is included.  A file that parses as
DICOM but carries any other extension is excluded, refuting the original
"every parsing file is included" reading. -/
theorem C9_discovery_characterization : ∀ entries : List FileEntry,
    find_dicom_files entries = (entries.filter isDicomCandidate).map FileEntry.path ∧
    ∀ e ∈ entries, isDicomCandidate e = true → e.path ∈ find_dicom_files entries := by
  intro entries
  refine ⟨find_dicom_files_eq_filter entries, ?_⟩
  intro e he hc
  rw [find_dicom_files_eq_filter]
  exact List.mem_map.mpr ⟨e, List.mem_filter.mpr ⟨he, hc⟩, rfl⟩

/-- C9 counterexample: `scan.ima` is a regular file that parses as a
DICOM record, yet `find_dicom_files` returns nothing — the extension
filter runs before the parse probe. -/
theorem C9_counterexample :
    (FileEntry.mk "scan.ima" ".ima" true true).isFile = true ∧
    (FileEntry.mk "scan.ima" ".ima" true true).parses = true ∧
    find_dicom_files [FileEntry.mk "scan.ima" ".ima" true true] = [] :=
  ⟨rfl, rfl, rfl⟩

/-- C9 witness: a parsing `.dcm` file is discovered. -/
theorem C9_witness :
    "a.dcm" ∈ find_dicom_files [FileEntry.mk "a.dcm" ".dcm" true true] :=
  (C9_discovery_characterization [FileEntry.mk "a.dcm" ".dcm" true true]).2
    (FileEntry.mk "a.dcm" ".dcm" true true) (List.mem_cons_self _ _) rfl

/-! ## Claims C8 and C10: the conversion loop -/

theorem renderPages_eq (decode : String → Option Qgrid) (a : ℝ) :
    ∀ fps : List String,
      (∀ fp ∈ fps, ∀ img, decode fp = some img → gridElems img ≠ []) →
      renderPages decode a fps =
        .ok (fps.filterMap fun fp =>
          (decode fp).bind fun img => (normalize_image img a).toOption) := by
  intro fps
  induction fps with
  | nil => intro _; rfl
  | cons fp rest ih =>
    intro h
    rw [renderPages, List.filterMap_cons]
    rcases hd : decode fp with _ | img
    · exact ih (fun f hf => h f (List.mem_cons_of_mem _ hf))
    · have hnei := h fp (List.mem_cons_self _ _) img hd
      obtain ⟨q, hq⟩ := prescale_isSome hnei
      have hnorm : normalize_image img a = .ok (gammaGrid q a) := by
        rw [normalize_image, hq]
      dsimp only
      rw [hnorm, ih (fun f hf => h f (List.mem_cons_of_mem _ hf))]
      simp [Except.toOption, hnorm]

theorem renderPages_all_none (decode : String → Option Qgrid) (a : ℝ) :
    ∀ fps : List String, (∀ fp ∈ fps, decode fp = none) →
      renderPages decode a fps = .ok [] := by
  intro fps
  induction fps with
  | nil => intro _; rfl
  | cons fp rest ih =>
    intro h
    rw [renderPages, h fp (List.mem_cons_self _ _)]
    exact ih (fun f hf => h f (List.mem_cons_of_mem _ hf))

theorem isEmpty_eq_false_of_ne_nil {l : List String} (hne : l ≠ []) :
    l.isEmpty = false := by
  rcases h : l with _ | ⟨f, fs⟩
  · exact absurd h hne
  · rfl

theorem convert_of_ne_nil {entries : List FileEntry}
    {decode : String → Option Qgrid} {out : String} {a : ℝ}
    (hne : find_dicom_files entries ≠ []) :
    convert_to_pdf entries decode out a =
      match renderPages decode a (find_dicom_files entries) with
      | .error e => .error e
      | .ok pages => .ok (some (out, pages)) := by
  rw [convert_to_pdf, isEmpty_eq_false_of_ne_nil hne]
  rfl

theorem convert_pages_eq {entries : List FileEntry}
    {decode : String → Option Qgrid} {out : String} {a : ℝ}
    (hne : find_dicom_files entries ≠ [])
    (hdec : ∀ fp ∈ find_dicom_files entries, ∀ img,
      decode fp = some img → gridElems img ≠ []) :
    convert_to_pdf entries decode out a =
      .ok (some (out, (find_dicom_files entries).filterMap
        fun fp => (decode fp).bind fun img => (normalize_image img a).toOption)) := by
  rw [convert_of_ne_nil hne, renderPages_eq decode a _ hdec]

/-- C8: in `convert_to_pdf` a file whose decode fails is skipped and only
that file: the produced page list is exactly one page per successfully
decoded discovered file, in discovery order, and the batch still returns
its output.  (Stated under the faithful side condition that every decoded
pixel grid is a nonempty image, so that `normalize_image` itself cannot
raise.) -/
theorem C8_decode_failures_skipped {entries : List FileEntry}
    {decode : String → Option Qgrid} {out : String} {a : ℝ}
    (hne : find_dicom_files entries ≠ [])
    (hdec : ∀ fp ∈ find_dicom_files entries, ∀ img,
      decode fp = some img → gridElems img ≠ []) :
    ∃ pages, convert_to_pdf entries decode out a = .ok (some (out, pages)) ∧
      pages = (find_dicom_files entries).filterMap
        (fun fp => (decode fp).bind fun img => (normalize_image img a).toOption) ∧
      ∀ fp ∈ find_dicom_files entries, ∀ img, decode fp = some img →
        ∃ page, normalize_image img a = .ok page ∧ page ∈ pages := by
  refine ⟨(find_dicom_files entries).filterMap
    (fun fp => (decode fp).bind fun img => (normalize_image img a).toOption),
    convert_pages_eq hne hdec, rfl, ?_⟩
  intro fp hfp img himg
  have hne2 := hdec fp hfp img himg
  obtain ⟨q, hq⟩ := prescale_isSome hne2
  have hnorm : normalize_image img a = .ok (gammaGrid q a) := by
    rw [normalize_image, hq]
  refine ⟨gammaGrid q a, hnorm, List.mem_filterMap.mpr ⟨fp, hfp, ?_⟩⟩
  rw [himg]
  simp [hnorm, Except.toOption]

/-- C10: `convert_to_pdf` returns `None` exactly when `find_dicom_files`
discovers nothing; when at least one candidate is discovered it returns
the output path — with an empty page list when every discovered file
fails to decode, and (provided decoded grids are genuine nonempty images)
with some page list in general. -/
theorem C10_none_iff_no_candidates :
    ∀ (entries : List FileEntry) (decode : String → Option Qgrid)
      (out : String) (a : ℝ),
    (convert_to_pdf entries decode out a = .ok none ↔ find_dicom_files entries = []) ∧
    ((∀ fp ∈ find_dicom_files entries, decode fp = none) →
      find_dicom_files entries ≠ [] →
      convert_to_pdf entries decode out a = .ok (some (out, []))) ∧
    ((∀ fp ∈ find_dicom_files entries, ∀ img,
        decode fp = some img → gridElems img ≠ []) →
      find_dicom_files entries ≠ [] →
      ∃ pages, convert_to_pdf entries decode out a = .ok (some (out, pages))) := by
  intro entries decode out a
  refine ⟨?_, ?_, ?_⟩
  · constructor
    · intro h
      by_contra hne
      rw [convert_of_ne_nil hne] at h
      rcases hr : renderPages decode a (find_dicom_files entries) with e | pages <;>
        rw [hr] at h <;> cases h
    · intro h
      rw [convert_to_pdf, h]
      rfl
  · intro hall hne
    rw [convert_of_ne_nil hne, renderPages_all_none decode a _ hall]
  · intro hdec hne
    exact ⟨_, convert_pages_eq hne hdec⟩

/-- A two-file batch in which the first file cannot be decoded. -/
def wEntries : List FileEntry :=
  [FileEntry.mk "bad.dcm" ".dcm" true true, FileEntry.mk "good.dcm" ".dcm" true true]

/-- A decode oracle failing exactly on `bad.dcm`. -/
def wDecode : String → Option Qgrid :=
  fun p => if p = "bad.dcm" then none else some [[0],[1]]

/-- C8 witness: `bad.dcm` is skipped, `good.dcm` still yields its page,
and the batch returns its output. -/
theorem C8_witness :
    ∃ pages, convert_to_pdf wEntries wDecode "out.pdf" 1 = .ok (some ("out.pdf", pages)) ∧
      pages = (find_dicom_files wEntries).filterMap
        (fun fp => (wDecode fp).bind fun img => (normalize_image img 1).toOption) ∧
      ∀ fp ∈ find_dicom_files wEntries, ∀ img, wDecode fp = some img →
        ∃ page, normalize_image img 1 = .ok page ∧ page ∈ pages := by
  refine C8_decode_failures_skipped (by decide) ?_
  intro fp hfp img himg
  rw [show find_dicom_files wEntries = ["bad.dcm", "good.dcm"] from rfl] at hfp
  rcases List.mem_cons.mp hfp with rfl | hfp2
  · rw [show wDecode "bad.dcm" = none from rfl] at himg
    cases himg
  · rcases List.mem_cons.mp hfp2 with rfl | hfp3
    · rw [show wDecode "good.dcm" = some [[0],[1]] from rfl] at himg
      cases himg
      simp [gridElems]
    · cases hfp3

/-- C10 witness: one discovered file whose decode fails — the conversion
still returns the output path, with an empty page list. -/
theorem C10_witness :
    convert_to_pdf [FileEntry.mk "a.dcm" ".dcm" true true] (fun _ => none) "out.pdf" 1 =
      .ok (some ("out.pdf", [])) :=
  (C10_none_iff_no_candidates [FileEntry.mk "a.dcm" ".dcm" true true]
      (fun _ => none) "out.pdf" 1).2.1 (fun _ _ => rfl) (by decide)

end Dicom2Pdf
